import Mathlib

/-!
Shallow embedding of the `error_report` crate's core: the collector actor
(`handle_messages` in `src/lib.rs`), its keyed store (a `SlotMap` from which
records are never removed, modelled as an entry list plus a fresh-key
counter), the message protocol, and the producer-side lifecycle contract
(`init` / `report` / `update` / `for_each` / `for_each_mut` / `done` /
`Drop for ErrorThread`), each of which panics via `.expect(INIT_MSG)` on
contract violation (modelled as `Except.error INIT_MSG`).

The collector runs on one thread and processes messages strictly in channel
arrival order, so a run of the actor is modelled as a pure recursion over the
list of messages in arrival order.
-/

namespace ErrorReport

variable {E T : Type}

/-- One error record of the store: the reported error value (`anyhow::Error`,
kept opaque as a type parameter `E`) and the optional extra context of type
`T`; mirrors the `$ErrorName` struct with fields `error` and `extra`. -/
structure ErrorRecord (E T : Type) where
  error : E
  extra : Option T
deriving DecidableEq

/-- The collector's store: a `SlotMap<DefaultKey, $ErrorName>`. Since the
actor never removes a record, keys are the sequential slot indices; `entries`
lists the slots in insertion order (which is the slotmap's iteration order
when nothing is removed) and `nextKey` is the next fresh slot index. -/
structure Store (E T : Type) where
  entries : List (Nat × ErrorRecord E T)
  nextKey : Nat
deriving DecidableEq

/-- `SlotMap::new()`: the empty store the actor starts from. -/
def Store.empty : Store E T := ⟨[], 0⟩

/-- The keys currently present in the store. -/
def Store.keys (s : Store E T) : List Nat := s.entries.map Prod.fst

/-- `SlotMap::len()`. -/
def Store.size (s : Store E T) : Nat := s.entries.length

/-- First-match lookup in an entry list. -/
def lookupEntry : List (Nat × ErrorRecord E T) → Nat → Option (ErrorRecord E T)
  | [], _ => none
  | (k', r) :: rest, k => if k' = k then some r else lookupEntry rest k

/-- Entry-wise effect of an update targeting key `k`: the entry under `k`
gets its extra replaced by `some x`, every other entry is untouched
(`if let Some(error) = errors.get_mut(key) ...`). -/
def updEntry (k : Nat) (x : T) (p : Nat × ErrorRecord E T) :
    Nat × ErrorRecord E T :=
  if p.1 = k then (p.1, ⟨p.2.error, some x⟩) else p

/-- `SlotMap::get`: the record stored under key `k`, if any. -/
def Store.find (s : Store E T) (k : Nat) : Option (ErrorRecord E T) :=
  lookupEntry s.entries k

/-- The error value stored under key `k`, if any. -/
def Store.errorAt (s : Store E T) (k : Nat) : Option E :=
  (s.find k).map ErrorRecord.error

/-- `SlotMap::insert`: store a record under the fresh key and return the
updated store together with that key. -/
def Store.insert (s : Store E T) (r : ErrorRecord E T) : Store E T × Nat :=
  (⟨s.entries ++ [(s.nextKey, r)], s.nextKey + 1⟩, s.nextKey)

/-- The `Update` arm of the actor loop: `if let Some(error) = errors.get_mut(key)
\x7b error.extra = Some(extra); \x7d` — replace the extra of the record under
`k` when present, leave the store unchanged when absent. -/
def Store.updateExtra (s : Store E T) (k : Nat) (x : T) : Store E T :=
  ⟨s.entries.map (updEntry k x), s.nextKey⟩

/-- The `ForEachMut` arm: run the mutating visitor on every record (in a pure
embedding, in-place mutation by `f` is the record-wise map of `f`). -/
def Store.mapRecords (s : Store E T) (f : ErrorRecord E T → ErrorRecord E T) :
    Store E T :=
  ⟨s.entries.map fun p => (p.1, f p.2), s.nextKey⟩

/-- The `Message` enum sent to the collector thread. `error` corresponds to
`Message::Error(error, sender)`: the one-shot reply sender is modelled by the
reply list the actor run returns. `quit` is `Message::Quit`. -/
inductive Message (E T : Type) where
  | error (e : E)
  | update (key : Nat) (extra : T)
  | forEach (f : ErrorRecord E T → Unit)
  | forEachMut (f : ErrorRecord E T → ErrorRecord E T)
  | quit

/-- The store mutation one processed message performs (the body of the
`match` in `handle_messages`; `quit` only breaks the loop, mutating
nothing). -/
def stepStore (m : Message E T) (s : Store E T) : Store E T :=
  match m with
  | .error e => (s.insert ⟨e, none⟩).1
  | .update k x => s.updateExtra k x
  | .forEach _ => s
  | .forEachMut f => s.mapRecords f
  | .quit => s

/-- `handle_messages`: receive messages in arrival order until `Quit` or
until the channel is disconnected (end of the list); return the final store
together with the keys sent back on the `Report` reply channels, in
processing order. -/
def handle_messages : List (Message E T) → Store E T → Store E T × List Nat
  | [], s => (s, [])
  | .quit :: _, s => (s, [])
  | .error e :: rest, s =>
      ((handle_messages rest (s.insert ⟨e, none⟩).1).1,
        (s.insert ⟨e, none⟩).2 :: (handle_messages rest (s.insert ⟨e, none⟩).1).2)
  | .update k x :: rest, s => handle_messages rest (s.updateExtra k x)
  | .forEach _ :: rest, s => handle_messages rest s
  | .forEachMut f :: rest, s => handle_messages rest (s.mapRecords f)

/-- The messages the actor actually processes: the prefix of the arrival
sequence strictly before the first `Quit` (everything after the terminating
event is never applied). -/
def processedMsgs : List (Message E T) → List (Message E T)
  | [] => []
  | .error e :: rest => .error e :: processedMsgs rest
  | .update k x :: rest => .update k x :: processedMsgs rest
  | .forEach f :: rest => .forEach f :: processedMsgs rest
  | .forEachMut f :: rest => .forEachMut f :: processedMsgs rest
  | .quit :: _ => []

/-- Number of `Report` messages in a message list. -/
def countReports : List (Message E T) → Nat
  | [] => 0
  | .error _ :: rest => countReports rest + 1
  | .update _ _ :: rest => countReports rest
  | .forEach _ :: rest => countReports rest
  | .forEachMut _ :: rest => countReports rest
  | .quit :: rest => countReports rest

/-- The reported error values of a message list, in order. -/
def reportedErrors : List (Message E T) → List E
  | [] => []
  | .error e :: rest => e :: reportedErrors rest
  | .update _ _ :: rest => reportedErrors rest
  | .forEach _ :: rest => reportedErrors rest
  | .forEachMut _ :: rest => reportedErrors rest
  | .quit :: rest => reportedErrors rest

/-- `true` when the list contains no `ForEachMut` message (mutating visitors
are the only way a stored error value can change). -/
def noForEachMut : List (Message E T) → Bool
  | [] => true
  | .error _ :: rest => noForEachMut rest
  | .update _ _ :: rest => noForEachMut rest
  | .forEach _ :: rest => noForEachMut rest
  | .forEachMut _ :: _ => false
  | .quit :: rest => noForEachMut rest

/-- `true` when the list contains no `Quit` message. -/
def noQuit : List (Message E T) → Bool
  | [] => true
  | .error _ :: rest => noQuit rest
  | .update _ _ :: rest => noQuit rest
  | .forEach _ :: rest => noQuit rest
  | .forEachMut _ :: rest => noQuit rest
  | .quit :: _ => false

/-- How many records one message inserts: `Report` inserts exactly one, every
other message inserts none. -/
def reportDelta : Message E T → Nat
  | .error _ => 1
  | _ => 0

/-- The keys the collector iterates over when it runs a visitor on store `s`
(`for (_, error) in errors.iter()` / `iter_mut()`): one visit per entry, in
slot order. -/
def visitedKeys (s : Store E T) : List Nat := s.entries.map Prod.fst

/-- Store well-formedness maintained by the actor: keys are pairwise distinct
and every key is below the fresh-key counter. -/
def Store.WF (s : Store E T) : Prop :=
  s.keys.Nodup ∧ ∀ k ∈ s.keys, k < s.nextKey

instance (s : Store E T) : Decidable s.WF := by
  unfold Store.WF; infer_instance

/-! Producer-side lifecycle model. The macro pins the channel sender in a
`OnceCell` (`MSG_TX`); every producer call does `MSG_TX.get().expect(INIT_MSG)`
and then `send(..).expect(INIT_MSG)`. A call panics (modelled `Except.error
INIT_MSG`) when the cell was never set (`init` not called) or when the
channel is disconnected (collector thread already returned, i.e. `done` was
called). -/

/-- The process-wide state a producer call observes: whether `init` has set
`MSG_TX`, and whether the collector thread (hence the channel receiver) is
still alive. -/
structure GlobalState where
  initialized : Bool
  collectorAlive : Bool
deriving DecidableEq

/-- `INIT_MSG`, the panic message of the crate. -/
def INIT_MSG : String :=
  "init() should be called once, and its result not discarded."

/-- `init`: `MSG_TX.set(message_tx).expect(INIT_MSG)` — panics when already
initialized, otherwise spawns the collector (both flags become true). -/
def init (st : GlobalState) : Except String GlobalState :=
  if st.initialized then .error INIT_MSG
  else .ok ⟨true, true⟩

/-- `report`: `MSG_TX.get().expect`, `send(..).expect`, `recv().expect` —
panics when uninitialized or when the collector has stopped; otherwise the
round trip completes. -/
def report (st : GlobalState) : Except String Unit :=
  if st.initialized = false then .error INIT_MSG
  else if st.collectorAlive = false then .error INIT_MSG
  else .ok ()

/-- `update`: `MSG_TX.get().expect`, `send(..).expect` — panics when
uninitialized or when the collector has stopped. -/
def update (st : GlobalState) : Except String Unit :=
  if st.initialized = false then .error INIT_MSG
  else if st.collectorAlive = false then .error INIT_MSG
  else .ok ()

/-- `for_each`: same send path as `update`. -/
def for_each (st : GlobalState) : Except String Unit :=
  if st.initialized = false then .error INIT_MSG
  else if st.collectorAlive = false then .error INIT_MSG
  else .ok ()

/-- `for_each_mut`: same send path as `update`. -/
def for_each_mut (st : GlobalState) : Except String Unit :=
  if st.initialized = false then .error INIT_MSG
  else if st.collectorAlive = false then .error INIT_MSG
  else .ok ()

/-- `ErrorThread::done`: `MSG_TX.get().expect`, send `Quit`, join — panics
when uninitialized; afterwards the collector is stopped. -/
def done (st : GlobalState) : Except String GlobalState :=
  if st.initialized = false then .error INIT_MSG
  else .ok ⟨st.initialized, false⟩

/-- `Drop for ErrorThread`: `MSG_TX.get().expect(INIT_MSG)` — panics when the
reporter was never initialized; otherwise `let _x = tx.send(Message::Quit)`
sends `Quit` best-effort, ignoring the send result (so it succeeds whether or
not the collector is still alive). -/
def dropErrorThread (st : GlobalState) : Except String Unit :=
  if st.initialized then .ok () else .error INIT_MSG

/-! ### Lookup lemmas -/

theorem lookupEntry_eq_none {l : List (Nat × ErrorRecord E T)} {k : Nat} :
    lookupEntry l k = none ↔ k ∉ l.map Prod.fst := by
  induction l with
  | nil => simp [lookupEntry]
  | cons p rest ih =>
      obtain ⟨a, r⟩ := p
      by_cases h : a = k
      · subst h; simp [lookupEntry]
      · simp only [lookupEntry, if_neg h, List.map_cons, List.mem_cons, ih]
        constructor
        · rintro hn (rfl | hm)
          · exact h rfl
          · exact hn hm
        · intro hn hm; exact hn (Or.inr hm)

theorem lookupEntry_append_left {l1 l2 : List (Nat × ErrorRecord E T)} {k : Nat}
    {r : ErrorRecord E T} (h : lookupEntry l1 k = some r) :
    lookupEntry (l1 ++ l2) k = some r := by
  induction l1 with
  | nil => simp [lookupEntry] at h
  | cons p rest ih =>
      obtain ⟨a, r'⟩ := p
      by_cases ha : a = k
      · simp only [lookupEntry, if_pos ha] at h ⊢; exact h
      · simp only [lookupEntry, if_neg ha] at h ⊢; exact ih h

theorem lookupEntry_append_right {l1 l2 : List (Nat × ErrorRecord E T)} {k : Nat}
    (h : k ∉ l1.map Prod.fst) :
    lookupEntry (l1 ++ l2) k = lookupEntry l2 k := by
  induction l1 with
  | nil => rfl
  | cons p rest ih =>
      obtain ⟨a, r'⟩ := p
      simp only [List.map_cons, List.mem_cons] at h
      push_neg at h
      have ha : ¬a = k := fun hh => h.1 hh.symm
      simp only [List.cons_append, lookupEntry, if_neg ha]
      exact ih h.2

/-! ### Step lemmas for insert -/

theorem keys_insert (s : Store E T) (r : ErrorRecord E T) :
    ((s.insert r).1).keys = s.keys ++ [s.nextKey] := by
  simp [Store.insert, Store.keys]

theorem nextKey_insert (s : Store E T) (r : ErrorRecord E T) :
    ((s.insert r).1).nextKey = s.nextKey + 1 := rfl

theorem size_insert (s : Store E T) (r : ErrorRecord E T) :
    ((s.insert r).1).size = s.size + 1 := by
  simp [Store.insert, Store.size]

theorem find_insert_self (s : Store E T) (r : ErrorRecord E T)
    (h : s.nextKey ∉ s.keys) : ((s.insert r).1).find s.nextKey = some r := by
  unfold Store.find Store.insert
  rw [lookupEntry_append_right h]
  simp [lookupEntry]

theorem find_insert_of_ne (s : Store E T) (r : ErrorRecord E T) {k : Nat}
    (h : k ≠ s.nextKey) : ((s.insert r).1).find k = s.find k := by
  unfold Store.find Store.insert
  cases hf : lookupEntry s.entries k with
  | some r' => exact lookupEntry_append_left hf
  | none =>
      rw [lookupEntry_append_right (lookupEntry_eq_none.mp hf)]
      simp only [lookupEntry, if_neg (fun hh : s.nextKey = k => h hh.symm)]

/-! ### Step lemmas for updateExtra -/

theorem fst_updEntry (k : Nat) (x : T) (p : Nat × ErrorRecord E T) :
    (updEntry k x p).1 = p.1 := by
  unfold updEntry
  split <;> rfl

theorem keys_updateExtra (s : Store E T) (k : Nat) (x : T) :
    (s.updateExtra k x).keys = s.keys := by
  unfold Store.keys Store.updateExtra
  rw [List.map_map]
  apply List.map_congr_left
  intro p _
  exact fst_updEntry k x p

theorem nextKey_updateExtra (s : Store E T) (k : Nat) (x : T) :
    (s.updateExtra k x).nextKey = s.nextKey := rfl

theorem size_updateExtra (s : Store E T) (k : Nat) (x : T) :
    (s.updateExtra k x).size = s.size := by
  simp [Store.updateExtra, Store.size]

theorem updEntry_pos (k : Nat) (x : T) (a : Nat) (r : ErrorRecord E T)
    (h : a = k) : updEntry k x (a, r) = (a, ⟨r.error, some x⟩) := by
  unfold updEntry
  exact if_pos h

theorem updEntry_neg (k : Nat) (x : T) (a : Nat) (r : ErrorRecord E T)
    (h : ¬a = k) : updEntry k x (a, r) = (a, r) := by
  unfold updEntry
  exact if_neg h

theorem lookupEntry_map_upd_self {l : List (Nat × ErrorRecord E T)} {k : Nat}
    (x : T) {r : ErrorRecord E T} (h : lookupEntry l k = some r) :
    lookupEntry (l.map (updEntry k x)) k = some ⟨r.error, some x⟩ := by
  induction l with
  | nil => cases h
  | cons p rest ih =>
      obtain ⟨a, r'⟩ := p
      simp only [lookupEntry] at h
      rw [List.map_cons]
      by_cases ha : a = k
      · rw [if_pos ha] at h
        cases h
        rw [updEntry_pos k x a r ha]
        simp only [lookupEntry]
        rw [if_pos ha]
      · rw [if_neg ha] at h
        rw [updEntry_neg k x a r' ha]
        simp only [lookupEntry]
        rw [if_neg ha]
        exact ih h

theorem lookupEntry_map_upd_ne {l : List (Nat × ErrorRecord E T)} {k : Nat}
    (x : T) {k' : Nat} (h : k' ≠ k) :
    lookupEntry (l.map (updEntry k x)) k' = lookupEntry l k' := by
  induction l with
  | nil => rfl
  | cons p rest ih =>
      obtain ⟨a, r'⟩ := p
      rw [List.map_cons]
      by_cases ha : a = k
      · have ha' : ¬a = k' := fun hh => h (hh ▸ ha)
        rw [updEntry_pos k x a r' ha]
        simp only [lookupEntry]
        rw [if_neg ha', if_neg ha']
        exact ih
      · rw [updEntry_neg k x a r' ha]
        simp only [lookupEntry]
        by_cases ha' : a = k'
        · rw [if_pos ha', if_pos ha']
        · rw [if_neg ha', if_neg ha']
          exact ih

theorem find_updateExtra_self (s : Store E T) {k : Nat} (x : T)
    {r : ErrorRecord E T} (h : s.find k = some r) :
    (s.updateExtra k x).find k = some ⟨r.error, some x⟩ :=
  lookupEntry_map_upd_self x h

theorem find_updateExtra_of_ne (s : Store E T) {k : Nat} (x : T) {k' : Nat}
    (h : k' ≠ k) : (s.updateExtra k x).find k' = s.find k' :=
  lookupEntry_map_upd_ne x h

theorem updateExtra_not_mem (s : Store E T) {k : Nat} (x : T)
    (h : k ∉ s.keys) : s.updateExtra k x = s := by
  cases s with
  | mk entries nextKey =>
      simp only [Store.keys] at h
      unfold Store.updateExtra
      simp only [Store.mk.injEq, and_true]
      induction entries with
      | nil => rfl
      | cons p rest ih =>
          obtain ⟨a, r'⟩ := p
          simp only [List.map_cons, List.mem_cons] at h
          push_neg at h
          have ha : ¬a = k := fun hh => h.1 hh.symm
          simp only [List.map_cons, updEntry, if_neg (ha : ¬(a, r').1 = k),
            List.cons.injEq, true_and]
          exact ih h.2

theorem errorAt_updateExtra (s : Store E T) (k : Nat) (x : T) (k' : Nat) :
    (s.updateExtra k x).errorAt k' = s.errorAt k' := by
  unfold Store.errorAt
  by_cases h : k' = k
  · subst h
    cases hf : s.find k' with
    | none =>
        rw [updateExtra_not_mem s x (lookupEntry_eq_none.mp hf), hf]
    | some r => rw [find_updateExtra_self s x hf]; simp
  · rw [find_updateExtra_of_ne s x h]

/-! ### Step lemmas for mapRecords -/

theorem keys_mapRecords (s : Store E T) (f : ErrorRecord E T → ErrorRecord E T) :
    (s.mapRecords f).keys = s.keys := by
  simp [Store.keys, Store.mapRecords, List.map_map]

theorem nextKey_mapRecords (s : Store E T)
    (f : ErrorRecord E T → ErrorRecord E T) :
    (s.mapRecords f).nextKey = s.nextKey := rfl

theorem size_mapRecords (s : Store E T)
    (f : ErrorRecord E T → ErrorRecord E T) :
    (s.mapRecords f).size = s.size := by
  simp [Store.mapRecords, Store.size]

/-! ### Well-formedness preservation -/

theorem WF_empty : (Store.empty : Store E T).WF := by
  constructor <;> simp [Store.empty, Store.keys]

theorem not_mem_keys_of_WF {s : Store E T} (h : s.WF) : s.nextKey ∉ s.keys :=
  fun hm => absurd (h.2 _ hm) (lt_irrefl _)

theorem WF_insert {s : Store E T} (h : s.WF) (r : ErrorRecord E T) :
    ((s.insert r).1).WF := by
  constructor
  · rw [keys_insert]
    refine List.Nodup.append h.1 (List.nodup_singleton _) ?_
    intro a ha hb
    simp only [List.mem_singleton] at hb
    subst hb
    exact not_mem_keys_of_WF h ha
  · intro k hk
    rw [keys_insert] at hk
    rw [nextKey_insert]
    rcases List.mem_append.mp hk with hk | hk
    · exact Nat.lt_succ_of_lt (h.2 k hk)
    · simp only [List.mem_singleton] at hk
      subst hk
      exact Nat.lt_succ_self _

theorem WF_updateExtra {s : Store E T} (h : s.WF) (k : Nat) (x : T) :
    (s.updateExtra k x).WF := by
  constructor
  · rw [keys_updateExtra]; exact h.1
  · intro a ha
    rw [keys_updateExtra] at ha
    rw [nextKey_updateExtra]
    exact h.2 a ha

theorem WF_mapRecords {s : Store E T} (h : s.WF)
    (f : ErrorRecord E T → ErrorRecord E T) : (s.mapRecords f).WF := by
  constructor
  · rw [keys_mapRecords]; exact h.1
  · intro a ha
    rw [keys_mapRecords] at ha
    rw [nextKey_mapRecords]
    exact h.2 a ha

theorem WF_stepStore {s : Store E T} (h : s.WF) (m : Message E T) :
    (stepStore m s).WF := by
  cases m with
  | error e => exact WF_insert h _
  | update k x => exact WF_updateExtra h k x
  | forEach f => exact h
  | forEachMut f => exact WF_mapRecords h f
  | quit => exact h

theorem WF_run {s : Store E T} (h : s.WF) (ms : List (Message E T)) :
    ((handle_messages ms s).1).WF := by
  induction ms generalizing s with
  | nil => exact h
  | cons m rest ih =>
      cases m with
      | error e =>
          simp only [handle_messages]
          exact ih (WF_insert h _)
      | update k x =>
          simp only [handle_messages]
          exact ih (WF_updateExtra h k x)
      | forEach f =>
          simp only [handle_messages]
          exact ih h
      | forEachMut f =>
          simp only [handle_messages]
          exact ih (WF_mapRecords h f)
      | quit => exact h

/-! ### Size and key-survival -/

theorem size_stepStore (m : Message E T) (s : Store E T) :
    (stepStore m s).size = s.size + reportDelta m := by
  cases m with
  | error e => exact size_insert s _
  | update k x => exact size_updateExtra s k x
  | forEach f => rfl
  | forEachMut f => exact size_mapRecords s f
  | quit => rfl

theorem mem_keys_stepStore {s : Store E T} {k : Nat} (h : k ∈ s.keys)
    (m : Message E T) : k ∈ (stepStore m s).keys := by
  cases m with
  | error e =>
      show k ∈ ((s.insert _).1).keys
      rw [keys_insert]
      exact List.mem_append_left _ h
  | update k' x =>
      show k ∈ (s.updateExtra k' x).keys
      rw [keys_updateExtra]
      exact h
  | forEach f => exact h
  | forEachMut f =>
      show k ∈ (s.mapRecords f).keys
      rw [keys_mapRecords]
      exact h
  | quit => exact h

theorem mem_keys_run {s : Store E T} {k : Nat} (h : k ∈ s.keys)
    (ms : List (Message E T)) : k ∈ ((handle_messages ms s).1).keys := by
  induction ms generalizing s with
  | nil => exact h
  | cons m rest ih =>
      cases m with
      | error e =>
          simp only [handle_messages]
          exact ih (mem_keys_stepStore h (Message.error e))
      | update k' x =>
          simp only [handle_messages]
          exact ih (mem_keys_stepStore h (Message.update k' x))
      | forEach f =>
          simp only [handle_messages]
          exact ih h
      | forEachMut f =>
          simp only [handle_messages]
          exact ih (mem_keys_stepStore h (Message.forEachMut f))
      | quit => exact h

/-! ### Run-level lemmas -/

theorem handle_messages_processed (ms : List (Message E T)) (s : Store E T) :
    handle_messages ms s = handle_messages (processedMsgs ms) s := by
  induction ms generalizing s with
  | nil => rfl
  | cons m rest ih =>
      cases m with
      | error e => simp only [handle_messages, processedMsgs, ih]
      | update k x => simp only [handle_messages, processedMsgs, ih]
      | forEach f => simp only [handle_messages, processedMsgs, ih]
      | forEachMut f => simp only [handle_messages, processedMsgs, ih]
      | quit => rfl

theorem run_eq_foldl (ms : List (Message E T)) (s : Store E T) :
    (handle_messages ms s).1 =
      (processedMsgs ms).foldl (fun t m => stepStore m t) s := by
  induction ms generalizing s with
  | nil => rfl
  | cons m rest ih =>
      cases m with
      | error e =>
          simp only [handle_messages, processedMsgs, List.foldl_cons]
          exact ih _
      | update k x =>
          simp only [handle_messages, processedMsgs, List.foldl_cons]
          exact ih _
      | forEach f =>
          simp only [handle_messages, processedMsgs, List.foldl_cons]
          exact ih _
      | forEachMut f =>
          simp only [handle_messages, processedMsgs, List.foldl_cons]
          exact ih _
      | quit => rfl

theorem replies_eq_range (ms : List (Message E T)) (s : Store E T) :
    (handle_messages ms s).2 =
      List.range' s.nextKey (countReports (processedMsgs ms)) := by
  induction ms generalizing s with
  | nil => rfl
  | cons m rest ih =>
      cases m with
      | error e =>
          simp only [handle_messages, processedMsgs, countReports, ih,
            List.range'_succ]
          rfl
      | update k x =>
          simp only [handle_messages, processedMsgs, countReports]
          exact ih _
      | forEach f =>
          simp only [handle_messages, processedMsgs, countReports]
          exact ih _
      | forEachMut f =>
          simp only [handle_messages, processedMsgs, countReports]
          exact ih _
      | quit => rfl

theorem size_run (ms : List (Message E T)) (s : Store E T) :
    ((handle_messages ms s).1).size = s.size + countReports (processedMsgs ms) := by
  induction ms generalizing s with
  | nil => rfl
  | cons m rest ih =>
      cases m with
      | error e =>
          simp only [handle_messages, processedMsgs, countReports, ih,
            size_insert]
          omega
      | update k x =>
          simp only [handle_messages, processedMsgs, countReports, ih,
            size_updateExtra]
      | forEach f =>
          simp only [handle_messages, processedMsgs, countReports]
          exact ih _
      | forEachMut f =>
          simp only [handle_messages, processedMsgs, countReports, ih,
            size_mapRecords]
      | quit => rfl

theorem reportedErrors_length (ms : List (Message E T)) :
    (reportedErrors ms).length = countReports ms := by
  induction ms with
  | nil => rfl
  | cons m rest ih =>
      cases m <;> simp [reportedErrors, countReports, ih]

theorem errorAt_run_preserved (ms : List (Message E T)) :
    ∀ (s : Store E T) (k : Nat), s.WF → k ∈ s.keys →
      noForEachMut (processedMsgs ms) = true →
      ((handle_messages ms s).1).errorAt k = s.errorAt k := by
  induction ms with
  | nil => intro s k _ _ _; rfl
  | cons m rest ih =>
      intro s k hwf hk hmut
      cases m with
      | error e =>
          simp only [processedMsgs, noForEachMut] at hmut
          simp only [handle_messages]
          have h1 : k ∈ ((s.insert ⟨e, none⟩).1).keys :=
            mem_keys_stepStore hk (Message.error e)
          rw [ih _ k (WF_insert hwf _) h1 hmut]
          unfold Store.errorAt
          rw [find_insert_of_ne s _ (Nat.ne_of_lt (hwf.2 k hk))]
      | update k' x =>
          simp only [processedMsgs, noForEachMut] at hmut
          simp only [handle_messages]
          have h1 : k ∈ (s.updateExtra k' x).keys := by
            rw [keys_updateExtra]; exact hk
          rw [ih _ k (WF_updateExtra hwf k' x) h1 hmut, errorAt_updateExtra]
      | forEach f =>
          simp only [processedMsgs, noForEachMut] at hmut
          simp only [handle_messages]
          exact ih _ k hwf hk hmut
      | forEachMut f =>
          simp only [processedMsgs, noForEachMut] at hmut
          exact Bool.noConfusion hmut
      | quit => rfl

theorem run_zip_errors (ms : List (Message E T)) :
    ∀ s : Store E T, s.WF → noForEachMut (processedMsgs ms) = true →
      ∀ p ∈ (handle_messages ms s).2.zip (reportedErrors (processedMsgs ms)),
        ((handle_messages ms s).1).errorAt p.1 = some p.2 := by
  induction ms with
  | nil => intro s _ _ p hp; cases hp
  | cons m rest ih =>
      intro s hwf hmut p hp
      cases m with
      | error e =>
          simp only [processedMsgs, noForEachMut] at hmut
          simp only [handle_messages, processedMsgs, reportedErrors,
            List.zip_cons_cons] at hp ⊢
          rcases List.mem_cons.mp hp with hp | hp
          · subst hp
            have hknew : (s.insert ⟨e, none⟩).2 ∈ ((s.insert ⟨e, none⟩).1).keys := by
              rw [keys_insert]
              exact List.mem_append_right _ (List.mem_singleton_self _)
            rw [errorAt_run_preserved rest _ _ (WF_insert hwf _) hknew hmut]
            unfold Store.errorAt
            show Option.map ErrorRecord.error
              ((s.insert ⟨e, none⟩).1.find s.nextKey) = some e
            rw [find_insert_self s _ (not_mem_keys_of_WF hwf)]
            rfl
          · exact ih _ (WF_insert hwf _) hmut p hp
      | update k' x =>
          simp only [processedMsgs, noForEachMut] at hmut
          simp only [handle_messages, processedMsgs, reportedErrors] at hp ⊢
          exact ih _ (WF_updateExtra hwf k' x) hmut p hp
      | forEach f =>
          simp only [processedMsgs, noForEachMut] at hmut
          simp only [handle_messages, processedMsgs, reportedErrors] at hp ⊢
          exact ih _ hwf hmut p hp
      | forEachMut f =>
          simp only [processedMsgs, noForEachMut] at hmut
          exact Bool.noConfusion hmut
      | quit => cases hp

theorem handle_messages_append (ms1 ms2 : List (Message E T)) :
    ∀ s : Store E T, noQuit ms1 = true →
      handle_messages (ms1 ++ ms2) s =
        ((handle_messages ms2 (handle_messages ms1 s).1).1,
          (handle_messages ms1 s).2 ++
            (handle_messages ms2 (handle_messages ms1 s).1).2) := by
  induction ms1 with
  | nil => intro s _; rfl
  | cons m rest ih =>
      intro s hq
      cases m with
      | error e =>
          simp only [noQuit] at hq
          simp only [List.cons_append, handle_messages, List.append_eq,
            ih _ hq, List.cons_append]
      | update k x =>
          simp only [noQuit] at hq
          simp only [List.cons_append, handle_messages, List.append_eq,
            ih _ hq, List.cons_append]
      | forEach f =>
          simp only [noQuit] at hq
          simp only [List.cons_append, handle_messages, List.append_eq,
            ih _ hq, List.cons_append]
      | forEachMut f =>
          simp only [noQuit] at hq
          simp only [List.cons_append, handle_messages, List.append_eq,
            ih _ hq, List.cons_append]
      | quit => simp [noQuit] at hq

/-- Auxiliary for C2: running a non-empty batch of updates targeting key `k`
on a store where `k` holds record `r` ends with extra equal to the last
update's value and the error value untouched. -/
theorem find_run_updates (k : Nat) (x : T) (ys : List T) :
    ∀ (s : Store E T) (r : ErrorRecord E T), s.find k = some r →
      ((handle_messages ((ys ++ [x]).map fun y => Message.update k y) s).1).find k
        = some ⟨r.error, some x⟩ := by
  induction ys with
  | nil =>
      intro s r h
      show ((s.updateExtra k x).find k) = some ⟨r.error, some x⟩
      exact find_updateExtra_self s x h
  | cons y ys ih =>
      intro s r h
      simp only [List.cons_append, List.map_cons, handle_messages]
      have h' : (s.updateExtra k y).find k = some ⟨r.error, some y⟩ :=
        find_updateExtra_self s y h
      exact ih (s.updateExtra k y) ⟨r.error, some y⟩ h'

/-! ### The claims -/

/-- C1: for every message sequence whose processed prefix performs `N` report
operations (and no mutating visitor), the store returned at shutdown has
exactly `N` entries under pairwise distinct keys, the actor sends exactly `N`
reply keys, the reply keys are pairwise distinct, and the record stored under
each reply key wraps exactly the error value of the corresponding report
call — no duplication, no loss. -/
theorem c1_report_no_duplication_no_loss (ms : List (Message E T))
    (hmut : noForEachMut (processedMsgs ms) = true) :
    ((handle_messages ms (Store.empty : Store E T)).1).size
        = countReports (processedMsgs ms) ∧
    (handle_messages ms (Store.empty : Store E T)).2.length
        = countReports (processedMsgs ms) ∧
    (handle_messages ms (Store.empty : Store E T)).2.Nodup ∧
    ((handle_messages ms (Store.empty : Store E T)).1).keys.Nodup ∧
    ∀ p ∈ (handle_messages ms (Store.empty : Store E T)).2.zip
        (reportedErrors (processedMsgs ms)),
      ((handle_messages ms (Store.empty : Store E T)).1).errorAt p.1 = some p.2 := by
  refine ⟨?_, ?_, ?_, ?_, ?_⟩
  · rw [size_run]
    simp [Store.empty, Store.size]
  · rw [replies_eq_range]
    simp
  · rw [replies_eq_range]
    exact List.nodup_range' _ _
  · exact (WF_run WF_empty ms).1
  · exact run_zip_errors ms Store.empty WF_empty hmut

/-- A concrete message run used by the C1 witness: two reports interleaved
with an update, then `Quit`, then a report that must be ignored. -/
def c1run : List (Message Nat Nat) :=
  [Message.error 7, Message.update 0 5, Message.error 8, Message.quit,
    Message.error 9]

/-- Witness for C1 at the concrete run `c1run`. -/
theorem c1_witness :
    noForEachMut (processedMsgs c1run) = true ∧
    (((handle_messages c1run (Store.empty : Store Nat Nat)).1).size
        = countReports (processedMsgs c1run) ∧
      (handle_messages c1run (Store.empty : Store Nat Nat)).2.length
        = countReports (processedMsgs c1run) ∧
      (handle_messages c1run (Store.empty : Store Nat Nat)).2.Nodup ∧
      ((handle_messages c1run (Store.empty : Store Nat Nat)).1).keys.Nodup ∧
      ∀ p ∈ (handle_messages c1run (Store.empty : Store Nat Nat)).2.zip
          (reportedErrors (processedMsgs c1run)),
        ((handle_messages c1run (Store.empty : Store Nat Nat)).1).errorAt p.1
          = some p.2) :=
  ⟨by decide, c1_report_no_duplication_no_loss c1run (by decide)⟩

/-- C2: a record created by a report has absent extra; processing
`Update(k, x)` on a store where `k` holds record `r` replaces that record's
extra with `some x` (not merged with any previous value); and after any
non-empty batch of updates to the same key the record's extra equals the
value of the last update processed (last write wins). -/
theorem c2_update_replaces_last_write_wins (s : Store E T) (e : E) (k : Nat)
    (x : T) (r : ErrorRecord E T) (ys : List T) (hwf : s.WF)
    (hk : s.find k = some r) :
    ((s.insert ⟨e, none⟩).1).find s.nextKey = some ⟨e, none⟩ ∧
    (s.updateExtra k x).find k = some ⟨r.error, some x⟩ ∧
    ((handle_messages ((ys ++ [x]).map fun y => Message.update k y) s).1).find k
        = some ⟨r.error, some x⟩ :=
  ⟨find_insert_self s _ (not_mem_keys_of_WF hwf),
    find_updateExtra_self s x hk, find_run_updates k x ys s r hk⟩

/-- Witness for C2 at a concrete store holding one record under key 0. -/
theorem c2_witness :
    (Store.mk [(0, ⟨3, none⟩)] 1 : Store Nat Nat).WF ∧
    (Store.mk [(0, ⟨3, none⟩)] 1 : Store Nat Nat).find 0 = some ⟨3, none⟩ ∧
    (((Store.mk [(0, ⟨3, none⟩)] 1 : Store Nat Nat).insert ⟨5, none⟩).1.find
        (Store.mk [(0, ⟨3, none⟩)] 1 : Store Nat Nat).nextKey = some ⟨5, none⟩ ∧
      ((Store.mk [(0, ⟨3, none⟩)] 1 : Store Nat Nat).updateExtra 0 9).find 0
        = some ⟨3, some 9⟩ ∧
      ((handle_messages (([1, 2] ++ [9]).map fun y => Message.update 0 y)
          (Store.mk [(0, ⟨3, none⟩)] 1 : Store Nat Nat)).1).find 0
        = some ⟨3, some 9⟩) :=
  ⟨by decide, by decide,
    c2_update_replaces_last_write_wins (Store.mk [(0, ⟨3, none⟩)] 1) 5 0 9
      ⟨3, none⟩ [1, 2] (by decide) (by decide)⟩

/-- C3: processing `Update(k, x)` for a key absent from the store is not an
error: it is silently ignored and leaves the store's size and contents
entirely unchanged (the resulting store is equal to the original). -/
theorem c3_update_unknown_key_noop (s : Store E T) (k : Nat) (x : T)
    (h : k ∉ s.keys) :
    stepStore (Message.update k x) s = s ∧
    (stepStore (Message.update k x) s).size = s.size ∧
    (stepStore (Message.update k x) s).entries = s.entries := by
  have he : s.updateExtra k x = s := updateExtra_not_mem s x h
  exact ⟨he, by rw [show stepStore (Message.update k x) s = _ from he],
    by rw [show stepStore (Message.update k x) s = _ from he]⟩

/-- Witness for C3: updating never-issued key 5 on a one-record store. -/
theorem c3_witness :
    (5 : Nat) ∉ (Store.mk [(0, ⟨3, none⟩)] 1 : Store Nat Nat).keys ∧
    (stepStore (Message.update 5 (9 : Nat))
          (Store.mk [(0, ⟨3, none⟩)] 1 : Store Nat Nat)
        = Store.mk [(0, ⟨3, none⟩)] 1 ∧
      (stepStore (Message.update 5 (9 : Nat))
          (Store.mk [(0, ⟨3, none⟩)] 1 : Store Nat Nat)).size
        = (Store.mk [(0, ⟨3, none⟩)] 1 : Store Nat Nat).size ∧
      (stepStore (Message.update 5 (9 : Nat))
          (Store.mk [(0, ⟨3, none⟩)] 1 : Store Nat Nat)).entries
        = (Store.mk [(0, ⟨3, none⟩)] 1 : Store Nat Nat).entries) :=
  ⟨by decide, c3_update_unknown_key_noop (Store.mk [(0, ⟨3, none⟩)] 1) 5 9
    (by decide)⟩

/-- C4: a `ForEach` or `ForEachMut` message makes the collector iterate the
store's entries, visiting every key currently in the store exactly once and
no other key; a read-only visitor leaves the store unchanged; a mutating
visitor rewrites each record through `f` exactly once; and the mutations of a
`ForEachMut` processed before `Quit` are present in the store the run
returns. -/
theorem c4_visitors_once_and_persist (s : Store E T)
    (f : ErrorRecord E T → ErrorRecord E T) (g : ErrorRecord E T → Unit)
    (ms : List (Message E T)) (hwf : s.WF) (hq : noQuit ms = true) :
    (∀ k ∈ s.keys, (visitedKeys s).count k = 1) ∧
    (∀ k, k ∉ s.keys → (visitedKeys s).count k = 0) ∧
    stepStore (Message.forEach g) s = s ∧
    stepStore (Message.forEachMut f) s = s.mapRecords f ∧
    (s.mapRecords f).entries = s.entries.map (fun p => (p.1, f p.2)) ∧
    handle_messages (ms ++ [Message.forEachMut f, Message.quit]) s =
      (((handle_messages ms s).1).mapRecords f, (handle_messages ms s).2) := by
  refine ⟨?_, ?_, rfl, rfl, rfl, ?_⟩
  · intro k hk
    exact List.count_eq_one_of_mem hwf.1 hk
  · intro k hk
    exact List.count_eq_zero_of_not_mem hk
  · rw [handle_messages_append ms [Message.forEachMut f, Message.quit] s hq]
    simp only [handle_messages, List.append_nil]

/-- Witness for C4: one stored record, a mutating visitor bumping the error
value, after a run consisting of one report. -/
theorem c4_witness :
    (Store.mk [(0, ⟨3, none⟩)] 1 : Store Nat Nat).WF ∧
    noQuit ([Message.error 4] : List (Message Nat Nat)) = true ∧
    ((∀ k ∈ (Store.mk [(0, ⟨3, none⟩)] 1 : Store Nat Nat).keys,
        (visitedKeys (Store.mk [(0, ⟨3, none⟩)] 1 : Store Nat Nat)).count k = 1) ∧
      (∀ k, k ∉ (Store.mk [(0, ⟨3, none⟩)] 1 : Store Nat Nat).keys →
        (visitedKeys (Store.mk [(0, ⟨3, none⟩)] 1 : Store Nat Nat)).count k = 0) ∧
      stepStore (Message.forEach fun _ => ())
          (Store.mk [(0, ⟨3, none⟩)] 1 : Store Nat Nat)
        = Store.mk [(0, ⟨3, none⟩)] 1 ∧
      stepStore (Message.forEachMut fun r => ⟨r.error + 1, r.extra⟩)
          (Store.mk [(0, ⟨3, none⟩)] 1 : Store Nat Nat)
        = (Store.mk [(0, ⟨3, none⟩)] 1 : Store Nat Nat).mapRecords
            (fun r => ⟨r.error + 1, r.extra⟩) ∧
      ((Store.mk [(0, ⟨3, none⟩)] 1 : Store Nat Nat).mapRecords
          (fun r => ⟨r.error + 1, r.extra⟩)).entries
        = (Store.mk [(0, ⟨3, none⟩)] 1 : Store Nat Nat).entries.map
            (fun p => (p.1, (fun r : ErrorRecord Nat Nat =>
              (⟨r.error + 1, r.extra⟩ : ErrorRecord Nat Nat)) p.2)) ∧
      handle_messages (([Message.error 4] : List (Message Nat Nat)) ++
          [Message.forEachMut fun r => ⟨r.error + 1, r.extra⟩, Message.quit])
          (Store.mk [(0, ⟨3, none⟩)] 1 : Store Nat Nat) =
        (((handle_messages ([Message.error 4] : List (Message Nat Nat))
            (Store.mk [(0, ⟨3, none⟩)] 1 : Store Nat Nat)).1).mapRecords
          (fun r => ⟨r.error + 1, r.extra⟩),
          (handle_messages ([Message.error 4] : List (Message Nat Nat))
            (Store.mk [(0, ⟨3, none⟩)] 1 : Store Nat Nat)).2)) :=
  ⟨by decide, by decide,
    c4_visitors_once_and_persist (Store.mk [(0, ⟨3, none⟩)] 1)
      (fun r => ⟨r.error + 1, r.extra⟩) (fun _ => ())
      [Message.error 4] (by decide) (by decide)⟩

/-- C5: the receive loop ends exactly on an explicit `Quit` or on a
disconnected channel (exhausted message list), and it treats them
identically: both return the current store by value with no further message
applied. -/
theorem c5_quit_disconnect_identical (rest : List (Message E T))
    (s : Store E T) :
    handle_messages (Message.quit :: rest) s = (s, []) ∧
    handle_messages ([] : List (Message E T)) s = (s, []) ∧
    handle_messages (Message.quit :: rest) s
      = handle_messages ([] : List (Message E T)) s :=
  ⟨rfl, rfl, rfl⟩

/-- C6: every contract violation panics at the call site: `report`, `update`,
`for_each`, `for_each_mut` before `init` panic; all of them after `done`
panic; `init` called a second time panics; and `done` stops the collector. -/
theorem c6_contract_violations_panic (b : Bool) :
    report ⟨false, b⟩ = .error INIT_MSG ∧
    update ⟨false, b⟩ = .error INIT_MSG ∧
    for_each ⟨false, b⟩ = .error INIT_MSG ∧
    for_each_mut ⟨false, b⟩ = .error INIT_MSG ∧
    done ⟨true, true⟩ = .ok ⟨true, false⟩ ∧
    report ⟨true, false⟩ = .error INIT_MSG ∧
    update ⟨true, false⟩ = .error INIT_MSG ∧
    for_each ⟨true, false⟩ = .error INIT_MSG ∧
    for_each_mut ⟨true, false⟩ = .error INIT_MSG ∧
    init ⟨true, b⟩ = .error INIT_MSG := by
  cases b <;>
    exact ⟨rfl, rfl, rfl, rfl, rfl, rfl, rfl, rfl, rfl, rfl⟩

/-- C7: every message sent before the terminating event is processed (a run
is exactly the fold of the step function over the processed prefix, and
nothing past the first `Quit` is applied); once the actor has stopped, an
affected producer call fails fatally instead of hanging or silently doing
nothing. -/
theorem c7_sent_implies_processed_or_panic (ms : List (Message E T))
    (s : Store E T) :
    handle_messages ms s = handle_messages (processedMsgs ms) s ∧
    (handle_messages ms s).1
      = (processedMsgs ms).foldl (fun t m => stepStore m t) s ∧
    report ⟨true, false⟩ = .error INIT_MSG ∧
    update ⟨true, false⟩ = .error INIT_MSG ∧
    for_each ⟨true, false⟩ = .error INIT_MSG ∧
    for_each_mut ⟨true, false⟩ = .error INIT_MSG :=
  ⟨handle_messages_processed ms s, run_eq_foldl ms s, rfl, rfl, rfl, rfl⟩

/-- C8: no record is ever deleted while the actor is alive: any single
message leaves the store size unchanged except `Report`, which adds exactly
one; and a key present in the store is still present after processing any
message and after any further run of the actor. -/
theorem c8_no_record_ever_deleted (m : Message E T) (ms : List (Message E T))
    (s : Store E T) (k : Nat) (hk : k ∈ s.keys) :
    (stepStore m s).size = s.size + reportDelta m ∧
    k ∈ (stepStore m s).keys ∧
    k ∈ ((handle_messages ms s).1).keys :=
  ⟨size_stepStore m s, mem_keys_stepStore hk m, mem_keys_run hk ms⟩

/-- Witness for C8: key 0 survives an update step and a longer run. -/
theorem c8_witness :
    (0 : Nat) ∈ (Store.mk [(0, ⟨3, none⟩)] 1 : Store Nat Nat).keys ∧
    ((stepStore (Message.update 0 9 : Message Nat Nat)
        (Store.mk [(0, ⟨3, none⟩)] 1 : Store Nat Nat)).size
      = (Store.mk [(0, ⟨3, none⟩)] 1 : Store Nat Nat).size
        + reportDelta (Message.update 0 9 : Message Nat Nat) ∧
      (0 : Nat) ∈ (stepStore (Message.update 0 9 : Message Nat Nat)
        (Store.mk [(0, ⟨3, none⟩)] 1 : Store Nat Nat)).keys ∧
      (0 : Nat) ∈ ((handle_messages
        ([Message.error 7, Message.update 0 5, Message.quit] : List (Message Nat Nat))
        (Store.mk [(0, ⟨3, none⟩)] 1 : Store Nat Nat)).1).keys) :=
  ⟨by decide,
    c8_no_record_ever_deleted (Message.update 0 9)
      [Message.error 7, Message.update 0 5, Message.quit]
      (Store.mk [(0, ⟨3, none⟩)] 1) 0 (by decide)⟩

/-- C9: processing `Update(k, x)` modifies at most the extra field of the
record under `k`: the record under any other key is entirely unchanged, the
error value under `k` is unchanged, and the store's size and key set are
unchanged. -/
theorem c9_update_frame (s : Store E T) (k : Nat) (x : T) (k' : Nat)
    (h : k' ≠ k) :
    (s.updateExtra k x).find k' = s.find k' ∧
    (s.updateExtra k x).errorAt k = s.errorAt k ∧
    (s.updateExtra k x).size = s.size ∧
    (s.updateExtra k x).keys = s.keys :=
  ⟨find_updateExtra_of_ne s x h, errorAt_updateExtra s k x k,
    size_updateExtra s k x, keys_updateExtra s k x⟩

/-- Witness for C9 on a two-record store, updating key 0, observing key 1. -/
theorem c9_witness :
    (1 : Nat) ≠ 0 ∧
    (((Store.mk [(0, ⟨3, none⟩), (1, ⟨4, none⟩)] 2 : Store Nat Nat).updateExtra
          0 9).find 1
        = (Store.mk [(0, ⟨3, none⟩), (1, ⟨4, none⟩)] 2 : Store Nat Nat).find 1 ∧
      ((Store.mk [(0, ⟨3, none⟩), (1, ⟨4, none⟩)] 2 : Store Nat Nat).updateExtra
          0 9).errorAt 0
        = (Store.mk [(0, ⟨3, none⟩), (1, ⟨4, none⟩)] 2 : Store Nat Nat).errorAt 0 ∧
      ((Store.mk [(0, ⟨3, none⟩), (1, ⟨4, none⟩)] 2 : Store Nat Nat).updateExtra
          0 9).size
        = (Store.mk [(0, ⟨3, none⟩), (1, ⟨4, none⟩)] 2 : Store Nat Nat).size ∧
      ((Store.mk [(0, ⟨3, none⟩), (1, ⟨4, none⟩)] 2 : Store Nat Nat).updateExtra
          0 9).keys
        = (Store.mk [(0, ⟨3, none⟩), (1, ⟨4, none⟩)] 2 : Store Nat Nat).keys) :=
  ⟨by decide,
    c9_update_frame (Store.mk [(0, ⟨3, none⟩), (1, ⟨4, none⟩)] 2) 0 9 1
      (by decide)⟩

/-- C10: dropping an `ErrorThread` whose reporter was never initialized
panics inside the `Drop` implementation instead of performing the best-effort
shutdown; when `init` was called, the drop performs the best-effort,
non-blocking `Quit` send and succeeds whether or not the collector is still
alive (the send result is discarded). -/
theorem c10_drop_uninitialized_panics (b : Bool) :
    dropErrorThread ⟨false, b⟩ = .error INIT_MSG ∧
    dropErrorThread ⟨true, b⟩ = .ok () ∧
    init ⟨false, b⟩ = .ok ⟨true, true⟩ := by
  cases b <;> exact ⟨rfl, rfl, rfl⟩

end ErrorReport
